import Mathlib

/-!
Verification of the slugpm command-line tool (Rust) against its
natural-language specification.

The development shallowly embeds the code of src/lib.rs and src/main.rs:

* Rust Path and PathBuf values are modelled by RPath, a root flag plus the
  parsed component list (normal components and ".." components; paths whose
  textual form contains "." components are outside the model, Rust
  normalizes them away during component parsing).
* The FileOps trait calls and the println! of the destination are recorded
  as an Effect trace; an operation returns none exactly where the Rust code
  panics on Option.unwrap (missing parent or missing file name).
  A successful trace assumes the underlying filesystem calls succeed, which
  is what the MockFileOps test double of the repository also does.
* For the append claim a filesystem state (a map from paths to byte lists)
  is threaded explicitly; open in create+append mode followed by write_all
  becomes: contents of an absent file are [], and the piped bytes are
  placed at the tail.
* The slug crate function slugify is embedded byte-for-byte from its
  push_char loop, parameterized by the transliteration table applied to
  non-ASCII characters; the properties proved are independent of the table.
-/

set_option autoImplicit false

namespace Slugpm

/-- One parsed component of a Rust path: a normal name or a ".." component. -/
inductive PathComp where
  | normal (name : String)
  | parentDir
deriving DecidableEq, Repr

/-- Model of a Rust Path / PathBuf: whether the path has a root, and its
parsed components in order. -/
structure RPath where
  absolute : Bool
  components : List PathComp
deriving DecidableEq, Repr

/-- Rust Path.parent: the path without its final component; None when the
path is empty or consists only of a root. -/
def RPath.parent (p : RPath) : Option RPath :=
  match p.components with
  | [] => none
  | _ :: _ => some ⟨p.absolute, p.components.dropLast⟩

/-- Rust Path.file_name: the final component when it is a normal component;
None when the path ends in ".." or has no components. -/
def RPath.fileName (p : RPath) : Option String :=
  match p.components.getLast? with
  | some (.normal s) => some s
  | _ => none

/-- Rust Path.join with a single normal (relative) component, the only form
of join the program uses. -/
def RPath.joinName (p : RPath) (s : String) : RPath :=
  ⟨p.absolute, p.components ++ [.normal s]⟩

def PathComp.displayStr : PathComp → String
  | .normal s => s
  | .parentDir => ".."

/-- Rust Display for a path of this shape: optional leading "/", components
separated by "/". -/
def RPath.display (p : RPath) : String :=
  (if p.absolute then "/" else "") ++
    String.intercalate "/" (p.components.map PathComp.displayStr)

/-- lib.rs / main.rs archive_dir_for_file_pure: parent.join("archive"). -/
def archive_dir_for_file_pure (parent : RPath) : RPath :=
  parent.joinName "archive"

/-- lib.rs / main.rs archive_dir_for_dir_pure:
parent.parent().unwrap_or(parent).join("archive"). -/
def archive_dir_for_dir_pure (parent : RPath) : RPath :=
  (parent.parent.getD parent).joinName "archive"

/-- One recorded call to the FileOps capability, one stdin read-and-write,
or one println! of a line. -/
inductive Effect where
  | createDirAll (path : RPath)
  | renameFs (src : RPath) (dst : RPath)
  | openAppend (path : RPath)
  | writeAll (bytes : List Nat)
  | printLn (line : String)
deriving DecidableEq, Repr

/-- main.rs archive_move_file_with: derive the archive dir from the
unwrapped parent, create it, rename the file to archive_dir/file_name,
print the destination.  none models the panic of .unwrap() when the target
has no parent or no file name; the returned RPath is the dest variable of
the source, the path that is printed.  (The lib.rs copy of the function is
identical except that it does not print.) -/
def archive_move_file_with (file : RPath) : Option (List Effect × RPath) := do
  let par ← file.parent
  let archDir := archive_dir_for_file_pure par
  let name ← file.fileName
  let dest := archDir.joinName name
  pure ([.createDirAll archDir, .renameFs file dest, .printLn dest.display], dest)

/-- main.rs archive_move_dir_with: same as the file case except the archive
dir is derived with archive_dir_for_dir_pure applied to the unwrapped
parent. -/
def archive_move_dir_with (dir : RPath) : Option (List Effect × RPath) := do
  let par ← dir.parent
  let archDir := archive_dir_for_dir_pure par
  let name ← dir.fileName
  let dest := archDir.joinName name
  pure ([.createDirAll archDir, .renameFs dir dest, .printLn dest.display], dest)

/-- main.rs archive_append_stdin_with: file-case archive dir, create it,
open dest in append mode, write all of stdin, print dest. -/
def archive_append_stdin_with (file : RPath) (stdin : List Nat) :
    Option (List Effect × RPath) := do
  let par ← file.parent
  let archDir := archive_dir_for_file_pure par
  let name ← file.fileName
  let dest := archDir.joinName name
  pure ([.createDirAll archDir, .openAppend dest, .writeAll stdin,
         .printLn dest.display], dest)

/-- The Cmd::Archive arm of main: after canonicalization, a trailing "-"
argument (dash = some true) selects append mode; otherwise the target is
dispatched on is_file / is_dir, and a target that is neither is an error. -/
def archive_dispatch (target : RPath) (dash : Option Bool)
    (isFile isDir : Bool) (stdin : List Nat) :
    Except String (Option (List Effect × RPath)) :=
  if dash.getD false then .ok (archive_append_stdin_with target stdin)
  else if isFile then .ok (archive_move_file_with target)
  else if isDir then .ok (archive_move_dir_with target)
  else .error (target.display ++ " is neither file nor directory")

/-- File contents by path; none means the file does not exist. -/
def FsState := RPath → Option (List Nat)

/-- archive_append_stdin_with run against a filesystem state: the
RealFileOps open_append opens dest with create(true).append(true), so an
absent dest starts as empty, and write_all of the stdin bytes places them
at the tail; no other path is touched.  none again models the unwrap
panics. -/
def archive_append_stdin_run (fs : FsState) (file : RPath)
    (stdin : List Nat) : Option (FsState × RPath) := do
  let par ← file.parent
  let name ← file.fileName
  let dest := (archive_dir_for_file_pure par).joinName name
  let oldContents := (fs dest).getD []
  pure (fun q => if q = dest then some (oldContents ++ stdin) else fs q, dest)

/-- A sequence of append invocations on the same target, threading the
filesystem state. -/
def archive_append_stdin_runs (fs : FsState) (file : RPath) :
    List (List Nat) → Option FsState
  | [] => some fs
  | s :: rest =>
    match archive_append_stdin_run fs file s with
    | none => none
    | some (fs2, _) => archive_append_stdin_runs fs2 file rest

/-- The byte range test for ASCII lowercase letters and decimal digits in
the push_char closure of the crate slug, expressed on the code point. -/
def isLowerAlnum (c : Char) : Bool :=
  (97 ≤ c.toNat && c.toNat ≤ 122) || (48 ≤ c.toNat && c.toNat ≤ 57)

/-- The byte test for an ASCII uppercase letter in push_char. -/
def isUpperAlpha (c : Char) : Bool :=
  65 ≤ c.toNat && c.toNat ≤ 90

/-- x - b A + b a of push_char: lower-case an ASCII uppercase letter. -/
def toLowerAscii (c : Char) : Char :=
  Char.ofNat (c.toNat + 32)

/-- The push_char closure of the crate slug applied to a run of
transliterated characters, carrying the prev_is_dash flag: keep lowercase
alphanumerics, lower-case uppercase letters, and collapse any run of other
characters to a single dash, never emitting a dash right after another
(nor at the start, because the flag starts as true). -/
def pushAscii : Bool → List Char → Bool × List Char
  | prev, [] => (prev, [])
  | prev, c :: cs =>
    if isLowerAlnum c then
      let r := pushAscii false cs
      (r.1, c :: r.2)
    else if isUpperAlpha c then
      let r := pushAscii false cs
      (r.1, toLowerAscii c :: r.2)
    else if prev then pushAscii prev cs
    else
      let r := pushAscii true cs
      (r.1, '-' :: r.2)

/-- One character of the input: ASCII characters feed push_char directly,
any other character goes through the transliteration table de first
(deunicode_char(c).unwrap_or("-") in the source). -/
def expandChar (de : Char → List Char) (c : Char) : List Char :=
  if c.toNat ≤ 127 then [c] else de c

/-- The main loop of _slugify of the crate slug over the input characters. -/
def slugCore (de : Char → List Char) : Bool → List Char → List Char
  | _, [] => []
  | prev, c :: cs =>
    let r := pushAscii prev (expandChar de c)
    r.2 ++ slugCore de r.1 cs

/-- The final string.pop() of _slugify: remove the at most one trailing
dash. -/
def dropTrailingDash (l : List Char) : List Char :=
  if l.getLast? = some '-' then l.dropLast else l

/-- slug::slugify, parameterized by the transliteration table applied to
non-ASCII characters. -/
def slugifyWith (de : Char → List Char) (s : String) : String :=
  String.mk (dropTrailingDash (slugCore de true s.data))

/-- The deunicode transliteration table of the crate slug is a large data
table external to this repository; it is modelled here as the dash
fallback for every non-ASCII character.  Every property proved below about
slugify_title is established by lemmas generic in the table, so none
depends on this choice. -/
def deunicode_tbl : Char → List Char := fun _ => ['-']

/-- lib.rs slugify_title: delegates to slug::slugify. -/
def slugify_title (title : String) : String :=
  slugifyWith deunicode_tbl title

/-- Validity scan for slug output: some final-flag when the list contains
only lowercase alphanumerics and dashes, with no dash immediately after
another dash (the flag true means a dash was just seen or we are at the
start). -/
def scanDashes : Bool → List Char → Option Bool
  | prev, [] => some prev
  | prev, c :: cs =>
    if isLowerAlnum c then scanDashes false cs
    else if c = '-' then (if prev then none else scanDashes true cs)
    else none

/-- The regex ^(\d{4}-\d{2}-\d{2})(-)? of the Name command, applied by
Regex::replace with the empty replacement: an anchored match of a date,
followed by an optional single dash, is removed; anything else is left
unchanged.  In the default Unicode mode of the regex crate, \d matches
every character of the Unicode general category Nd; that category is a
large data table bundled with the crate, external to this repository, so
the matcher is parameterized by the digit classifier nd, and every
property proved below holds for every classifier, hence for the bundled
table. -/
def strip_date_with (nd : Char → Bool) (base : String) : String :=
  match base.data with
  | y1 :: y2 :: y3 :: y4 :: s1 :: m1 :: m2 :: s2 :: d1 :: d2 :: rest =>
    if nd y1 && nd y2 && nd y3 && nd y4 && s1 == '-' &&
        nd m1 && nd m2 && s2 == '-' && nd d1 && nd d2 then
      match rest with
      | '-' :: rest2 => String.mk rest2
      | _ => String.mk rest
    else base
  | _ => base

/-- The Cmd::Name arm of main, parameterized by the same digit
classifier: take the file name of the argument (an error when there is
none; the non-UTF-8 error of the source cannot arise in this model,
whose strings are Unicode), strip the date prefix per the regex, and
print the remainder; the returned string is the printed line. -/
def name_cmd_with (nd : Char → Bool) (dirname : RPath) :
    Except String String :=
  match dirname.fileName with
  | none => .error "invalid directory name"
  | some base => .ok (strip_date_with nd base)

/-- Helper for the model of str::lines: the characters before the first
newline, and whether a newline was found. -/
def takeToNewline : List Char → List Char × Bool
  | [] => ([], false)
  | c :: cs =>
    if c = '\n' then ([], true)
    else
      let r := takeToNewline cs
      (c :: r.1, r.2)

/-- buf.lines().next() of the source: none on the empty string, otherwise
the text before the first newline, with one trailing carriage return
removed when the line was newline-terminated. -/
def lines_first (s : String) : Option String :=
  match s.data with
  | [] => none
  | _ :: _ =>
    let r := takeToNewline s.data
    some (String.mk
      (if r.2 && (r.1.getLast? == some '\x0d') then r.1.dropLast else r.1))

/-- char::is_whitespace of Rust, used by str::trim: a character has the
Unicode White_Space property.  That property is the fixed set of 25 code
points U+0009..U+000D, U+0020, U+0085, U+00A0, U+1680, U+2000..U+200A,
U+2028, U+2029, U+202F, U+205F and U+3000, enumerated here. -/
def isWhite (c : Char) : Bool :=
  (9 ≤ c.toNat && c.toNat ≤ 13) || c.toNat = 32 || c.toNat = 133 ||
  c.toNat = 160 || c.toNat = 5760 ||
  (8192 ≤ c.toNat && c.toNat ≤ 8202) || c.toNat = 8232 ||
  c.toNat = 8233 || c.toNat = 8239 || c.toNat = 8287 || c.toNat = 12288

/-- str::trim: remove leading and trailing whitespace. -/
def rust_trim (s : String) : String :=
  String.mk
    (((s.data.dropWhile isWhite).reverse.dropWhile isWhite).reverse)

/-- main.rs create_project_dir: slug the title, create project/<slug>
recursively, print the path.  The returned RPath is the created and
printed directory. -/
def create_project_dir (title : String) : List Effect × RPath :=
  let slug := slugify_title title
  let dir := (⟨false, [.normal "project"]⟩ : RPath).joinName slug
  ([.createDirAll dir, .printLn dir.display], dir)

/-- Cmd::from_default_args of main.rs: with a terminal on stdin the title
is the argument words joined by spaces (an error when there are none);
otherwise the title is the first line of the piped input, trimmed (an
error when that is empty). -/
def from_default_args (isTty : Bool) (args : List String) (piped : String) :
    Except String (List Effect × RPath) :=
  if isTty then
    if args.isEmpty then .error "missing <title>"
    else .ok (create_project_dir (String.intercalate " " args))
  else
    let firstLine := rust_trim ((lines_first piped).getD "")
    if firstLine = "" then .error "STDIN is empty"
    else .ok (create_project_dir firstLine)

lemma char_toNat_ofNat (n : Nat) (h : n < 55296) : (Char.ofNat n).toNat = n := by
  have hv : n.isValidChar := Or.inl h
  simp [Char.ofNat, hv, Char.ofNatAux, Char.toNat, UInt32.toNat,
    BitVec.toNat_ofNatLt]

lemma isLowerAlnum_ascii {c : Char} (h : isLowerAlnum c = true) :
    c.toNat ≤ 127 := by
  simp [isLowerAlnum] at h
  omega

lemma isLowerAlnum_toLowerAscii {c : Char} (h : isUpperAlpha c = true) :
    isLowerAlnum (toLowerAscii c) = true := by
  simp [isUpperAlpha] at h
  have hn : (Char.ofNat (c.toNat + 32)).toNat = c.toNat + 32 :=
    char_toNat_ofNat _ (by omega)
  simp [isLowerAlnum, toLowerAscii, hn]
  omega

lemma expandChar_ascii (de : Char → List Char) {c : Char}
    (h : c.toNat ≤ 127) : expandChar de c = [c] := by
  simp [expandChar, h]

lemma dash_not_lowerAlnum : isLowerAlnum '-' = false := by decide

lemma dash_not_upperAlpha : isUpperAlpha '-' = false := by decide

lemma scanDashes_append (l1 l2 : List Char) :
    ∀ prev, scanDashes prev (l1 ++ l2) =
      (scanDashes prev l1).bind fun p => scanDashes p l2 := by
  induction l1 with
  | nil => intro prev; simp [scanDashes]
  | cons c cs ih =>
    intro prev
    cases h1 : isLowerAlnum c with
    | true => simp [scanDashes, h1, ih]
    | false =>
      by_cases h2 : c = '-'
      · cases prev with
        | true => simp [scanDashes, h1, h2, dash_not_lowerAlnum]
        | false => simp [scanDashes, h1, h2, dash_not_lowerAlnum, ih]
      · simp [scanDashes, h1, h2]

lemma scan_pushAscii : ∀ (cs : List Char) (prev : Bool),
    scanDashes prev (pushAscii prev cs).2 = some (pushAscii prev cs).1 := by
  intro cs
  induction cs with
  | nil => intro prev; simp [pushAscii, scanDashes]
  | cons c cs ih =>
    intro prev
    cases h1 : isLowerAlnum c with
    | true => simp [pushAscii, h1, scanDashes, ih false]
    | false =>
      cases h2 : isUpperAlpha c with
      | true =>
        have hl := isLowerAlnum_toLowerAscii h2
        simp [pushAscii, h1, h2, scanDashes, hl, ih false]
      | false =>
        cases prev with
        | true => simpa [pushAscii, h1, h2] using ih true
        | false =>
          simp [pushAscii, h1, h2, scanDashes, dash_not_lowerAlnum, ih true]

lemma pushAscii_mem : ∀ (cs : List Char) (prev : Bool) (c : Char),
    c ∈ (pushAscii prev cs).2 → isLowerAlnum c = true ∨ c = '-' := by
  intro cs
  induction cs with
  | nil => intro prev c hc; simp [pushAscii] at hc
  | cons d cs ih =>
    intro prev c hc
    cases h1 : isLowerAlnum d with
    | true =>
      simp only [pushAscii, h1, if_pos] at hc
      rcases List.mem_cons.1 hc with rfl | hc
      · exact Or.inl h1
      · exact ih false c hc
    | false =>
      cases h2 : isUpperAlpha d with
      | true =>
        simp only [pushAscii, h1, h2] at hc
        rcases List.mem_cons.1 (by simpa using hc) with rfl | hc'
        · exact Or.inl (isLowerAlnum_toLowerAscii h2)
        · exact ih false c hc'
      | false =>
        cases prev with
        | true =>
          simp only [pushAscii, h1, h2] at hc
          exact ih true c (by simpa using hc)
        | false =>
          simp only [pushAscii, h1, h2] at hc
          rcases List.mem_cons.1 (by simpa using hc) with rfl | hc'
          · exact Or.inr rfl
          · exact ih true c hc'

lemma scan_slugCore (de : Char → List Char) :
    ∀ (cs : List Char) (prev : Bool),
      (scanDashes prev (slugCore de prev cs)).isSome = true := by
  intro cs
  induction cs with
  | nil => intro prev; simp [slugCore, scanDashes]
  | cons c cs ih =>
    intro prev
    simp only [slugCore]
    rw [scanDashes_append, scan_pushAscii]
    simpa using ih _

lemma slugCore_mem (de : Char → List Char) :
    ∀ (cs : List Char) (prev : Bool) (c : Char),
      c ∈ slugCore de prev cs → isLowerAlnum c = true ∨ c = '-' := by
  intro cs
  induction cs with
  | nil => intro prev c hc; simp [slugCore] at hc
  | cons d cs ih =>
    intro prev c hc
    simp only [slugCore] at hc
    rcases List.mem_append.1 hc with hc | hc
    · exact pushAscii_mem _ _ _ hc
    · exact ih _ _ hc

lemma slugCore_id (de : Char → List Char) :
    ∀ (l : List Char) (prev : Bool),
      (scanDashes prev l).isSome = true → slugCore de prev l = l := by
  intro l
  induction l with
  | nil => intro prev _; simp [slugCore]
  | cons c cs ih =>
    intro prev h
    cases h1 : isLowerAlnum c with
    | true =>
      have ha : c.toNat ≤ 127 := isLowerAlnum_ascii h1
      have hscan : (scanDashes false cs).isSome = true := by
        simpa [scanDashes, h1] using h
      simp only [slugCore, expandChar_ascii de ha]
      simp [pushAscii, h1, ih false hscan]
    | false =>
      by_cases h2 : c = '-'
      · subst h2
        cases prev with
        | true => simp [scanDashes, h1] at h
        | false =>
          have hscan : (scanDashes true cs).isSome = true := by
            simpa [scanDashes, h1] using h
          have hd : ('-').toNat ≤ 127 := by decide
          simp only [slugCore, expandChar_ascii de hd]
          simp [pushAscii, h1, dash_not_upperAlpha, ih true hscan]
      · simp [scanDashes, h1, h2] at h

lemma scanDashes_dropTrailingDash {prev : Bool} {l : List Char}
    (h : (scanDashes prev l).isSome = true) :
    (scanDashes prev (dropTrailingDash l)).isSome = true := by
  unfold dropTrailingDash
  by_cases hl : l.getLast? = some '-'
  · rw [if_pos hl]
    have hne : l ≠ [] := by
      intro h0
      subst h0
      simp at hl
    have hdecomp : l.dropLast ++ [l.getLast hne] = l :=
      List.dropLast_append_getLast hne
    have hbind : (scanDashes prev (l.dropLast ++ [l.getLast hne])).isSome
        = true := by rw [hdecomp]; exact h
    rw [scanDashes_append] at hbind
    cases hsc : scanDashes prev l.dropLast with
    | none => rw [hsc] at hbind; simp at hbind
    | some p => simp [hsc]
  · rw [if_neg hl]
    exact h

lemma dropTrailingDash_getLast {prev : Bool} {l : List Char}
    (h : (scanDashes prev l).isSome = true) :
    (dropTrailingDash l).getLast? ≠ some '-' := by
  unfold dropTrailingDash
  by_cases hl : l.getLast? = some '-'
  · rw [if_pos hl]
    intro hcontra
    have hne : l ≠ [] := by
      intro h0
      subst h0
      simp at hl
    have hd1 : l.dropLast ++ [l.getLast hne] = l :=
      List.dropLast_append_getLast hne
    have hlast1 : l.getLast hne = '-' := by
      have := List.getLast?_eq_getLast l hne
      rw [this] at hl
      exact Option.some.inj hl
    have hne2 : l.dropLast ≠ [] := by
      intro h0
      rw [h0] at hcontra
      simp at hcontra
    have hd2 : l.dropLast.dropLast ++ [l.dropLast.getLast hne2] = l.dropLast :=
      List.dropLast_append_getLast hne2
    have hlast2 : l.dropLast.getLast hne2 = '-' := by
      have := List.getLast?_eq_getLast l.dropLast hne2
      rw [this] at hcontra
      exact Option.some.inj hcontra
    have hshape : l = l.dropLast.dropLast ++ ['-'] ++ ['-'] := by
      rw [← hd1, ← hd2, hlast1, hlast2]
      simp
    rw [hshape, scanDashes_append, scanDashes_append] at h
    cases hsc : scanDashes prev l.dropLast.dropLast with
    | none => simp [hsc] at h
    | some p =>
      rw [hsc] at h
      cases p with
      | true => simp [scanDashes, dash_not_lowerAlnum] at h
      | false => simp [scanDashes, dash_not_lowerAlnum] at h
  · rw [if_neg hl]
    exact hl

lemma dropTrailingDash_id {l : List Char} (h : l.getLast? ≠ some '-') :
    dropTrailingDash l = l := by
  simp [dropTrailingDash, h]

lemma slugifyWith_idem (de : Char → List Char) (s : String) :
    slugifyWith de (slugifyWith de s) = slugifyWith de s := by
  unfold slugifyWith
  have h1 : (scanDashes true (slugCore de true s.data)).isSome = true :=
    scan_slugCore de s.data true
  have h2 : (scanDashes true
      (dropTrailingDash (slugCore de true s.data))).isSome = true :=
    scanDashes_dropTrailingDash h1
  show String.mk (dropTrailingDash (slugCore de true
      (dropTrailingDash (slugCore de true s.data)))) = _
  rw [slugCore_id de _ _ h2,
    dropTrailingDash_id (dropTrailingDash_getLast h1)]

lemma slugifyWith_mem (de : Char → List Char) (s : String) (c : Char)
    (hc : c ∈ (slugifyWith de s).data) :
    isLowerAlnum c = true ∨ c = '-' := by
  have hc2 : c ∈ dropTrailingDash (slugCore de true s.data) := hc
  have hc3 : c ∈ slugCore de true s.data := by
    unfold dropTrailingDash at hc2
    by_cases hl : (slugCore de true s.data).getLast? = some '-'
    · rw [if_pos hl] at hc2
      exact (List.dropLast_sublist _).subset hc2
    · rwa [if_neg hl] at hc2
  exact slugCore_mem de _ _ _ hc3

/-- C3: archive_dir_for_file_pure is P joined with "archive" for every path
P; archive_dir_for_dir_pure is the parent of P joined with "archive", and
falls back to P joined with "archive" when P has no parent.  Both functions
are plain Lean functions, hence pure and total. -/
theorem c3_pure_derivations (P : RPath) :
    archive_dir_for_file_pure P = P.joinName "archive"
    ∧ (∀ G : RPath, P.parent = some G →
        archive_dir_for_dir_pure P = G.joinName "archive")
    ∧ (P.parent = none → archive_dir_for_dir_pure P = P.joinName "archive") := by
  refine ⟨rfl, ?_, ?_⟩
  · intro G h
    simp [archive_dir_for_dir_pure, h]
  · intro h
    simp [archive_dir_for_dir_pure, h]

/-- Witness for C3 at the concrete paths /foo/bar (parent present) and /
(no parent). -/
theorem c3_pure_derivations_witness :
    (⟨true, [.normal "foo", .normal "bar"]⟩ : RPath).parent =
        some ⟨true, [.normal "foo"]⟩
    ∧ archive_dir_for_dir_pure ⟨true, [.normal "foo", .normal "bar"]⟩ =
        ⟨true, [.normal "foo", .normal "archive"]⟩
    ∧ (⟨true, []⟩ : RPath).parent = none
    ∧ archive_dir_for_dir_pure ⟨true, []⟩ = ⟨true, [.normal "archive"]⟩ := by
  refine ⟨rfl, ?_, rfl, ?_⟩
  · simpa [RPath.joinName] using
      (c3_pure_derivations ⟨true, [.normal "foo", .normal "bar"]⟩).2.1
        ⟨true, [.normal "foo"]⟩ rfl
  · simpa [RPath.joinName] using
      (c3_pure_derivations ⟨true, []⟩).2.2 rfl

/-- C2: for a file target with parent P and base name n, the move-file
operation creates P/archive, renames the file to P/archive/n, and prints
exactly that destination path. -/
theorem c2_move_file_trace (file P : RPath) (n : String)
    (h1 : file.parent = some P) (h2 : file.fileName = some n) :
    archive_move_file_with file =
      some ([.createDirAll (P.joinName "archive"),
             .renameFs file ((P.joinName "archive").joinName n),
             .printLn ((P.joinName "archive").joinName n).display],
            (P.joinName "archive").joinName n) := by
  simp [archive_move_file_with, archive_dir_for_file_pure, h1, h2]

/-- Witness for C2: /proj/2025/report.txt is moved to
/proj/2025/archive/report.txt and that path is printed. -/
theorem c2_move_file_trace_witness :
    (⟨true, [.normal "proj", .normal "2025", .normal "report.txt"]⟩ : RPath).parent
        = some ⟨true, [.normal "proj", .normal "2025"]⟩
    ∧ (⟨true, [.normal "proj", .normal "2025", .normal "report.txt"]⟩ : RPath).fileName
        = some "report.txt"
    ∧ archive_move_file_with
        ⟨true, [.normal "proj", .normal "2025", .normal "report.txt"]⟩ =
      some ([.createDirAll ⟨true, [.normal "proj", .normal "2025", .normal "archive"]⟩,
             .renameFs ⟨true, [.normal "proj", .normal "2025", .normal "report.txt"]⟩
               ⟨true, [.normal "proj", .normal "2025", .normal "archive", .normal "report.txt"]⟩,
             .printLn "/proj/2025/archive/report.txt"],
            ⟨true, [.normal "proj", .normal "2025", .normal "archive", .normal "report.txt"]⟩) := by
  refine ⟨rfl, rfl, ?_⟩
  have h := c2_move_file_trace
    ⟨true, [.normal "proj", .normal "2025", .normal "report.txt"]⟩
    ⟨true, [.normal "proj", .normal "2025"]⟩ "report.txt" rfl rfl
  simpa [RPath.joinName, RPath.display, PathComp.displayStr,
    String.intercalate] using h

/-- C1: for a directory target with parent P (itself having parent G) and
base name n, the move-dir operation computes its destination as G joined
with "archive" joined with n, one level higher than the file case. -/
theorem c1_move_dir_dest (D P G : RPath) (n : String)
    (h1 : D.parent = some P) (h2 : P.parent = some G)
    (h3 : D.fileName = some n) :
    (archive_move_dir_with D).map Prod.snd =
      some ((G.joinName "archive").joinName n) := by
  simp [archive_move_dir_with, archive_dir_for_dir_pure, h1, h2, h3]

/-- Witness for C1: archiving the directory /proj/2025/sprint1 targets
/proj/archive/sprint1. -/
theorem c1_move_dir_dest_witness :
    (⟨true, [.normal "proj", .normal "2025", .normal "sprint1"]⟩ : RPath).parent
        = some ⟨true, [.normal "proj", .normal "2025"]⟩
    ∧ (⟨true, [.normal "proj", .normal "2025"]⟩ : RPath).parent
        = some ⟨true, [.normal "proj"]⟩
    ∧ (archive_move_dir_with
          ⟨true, [.normal "proj", .normal "2025", .normal "sprint1"]⟩).map Prod.snd
        = some ⟨true, [.normal "proj", .normal "archive", .normal "sprint1"]⟩
    ∧ (⟨true, [.normal "proj", .normal "archive", .normal "sprint1"]⟩ : RPath).display
        = "/proj/archive/sprint1" := by
  refine ⟨rfl, rfl, ?_, rfl⟩
  exact c1_move_dir_dest _ _ ⟨true, [.normal "proj"]⟩ "sprint1" rfl rfl rfl

/-- C5: on a target with a parent and a base name, the append-stdin
operation computes the same destination path as the move-file operation,
namely parent/archive/base-name. -/
theorem c5_append_dest_eq_move_dest (file P : RPath) (n : String)
    (stdin : List Nat)
    (h1 : file.parent = some P) (h2 : file.fileName = some n) :
    (archive_append_stdin_with file stdin).map Prod.snd =
        (archive_move_file_with file).map Prod.snd
    ∧ (archive_append_stdin_with file stdin).map Prod.snd =
        some ((P.joinName "archive").joinName n) := by
  constructor <;>
    simp [archive_append_stdin_with, archive_move_file_with,
      archive_dir_for_file_pure, h1, h2]

/-- Witness for C5 at /a/b.txt with stdin bytes [104, 105]. -/
theorem c5_append_dest_eq_move_dest_witness :
    (⟨true, [.normal "a", .normal "b.txt"]⟩ : RPath).parent
        = some ⟨true, [.normal "a"]⟩
    ∧ (⟨true, [.normal "a", .normal "b.txt"]⟩ : RPath).fileName = some "b.txt"
    ∧ (archive_append_stdin_with ⟨true, [.normal "a", .normal "b.txt"]⟩
          [104, 105]).map Prod.snd =
        (archive_move_file_with ⟨true, [.normal "a", .normal "b.txt"]⟩).map Prod.snd
    ∧ (archive_append_stdin_with ⟨true, [.normal "a", .normal "b.txt"]⟩
          [104, 105]).map Prod.snd =
        some ⟨true, [.normal "a", .normal "archive", .normal "b.txt"]⟩ := by
  have h := c5_append_dest_eq_move_dest
    ⟨true, [.normal "a", .normal "b.txt"]⟩ ⟨true, [.normal "a"]⟩ "b.txt"
    [104, 105] rfl rfl
  exact ⟨rfl, rfl, h.1, by simpa [RPath.joinName] using h.2⟩

/-- C9: with the trailing dash present, the archive dispatch performs the
append operation for every target regardless of is_file / is_dir, never
reaches the neither-file-nor-directory error, and the destination it
appends to is derived with the file-case rule parent/archive/base-name. -/
theorem c9_dash_skips_type_check (target : RPath) (isFile isDir : Bool)
    (stdin : List Nat) :
    archive_dispatch target (some true) isFile isDir stdin =
        .ok (archive_append_stdin_with target stdin)
    ∧ (∀ e : String,
        archive_dispatch target (some true) isFile isDir stdin ≠ .error e)
    ∧ (∀ (P : RPath) (n : String), target.parent = some P →
        target.fileName = some n →
        (archive_append_stdin_with target stdin).map Prod.snd =
          some ((archive_dir_for_file_pure P).joinName n)) := by
  refine ⟨rfl, by simp [archive_dispatch], ?_⟩
  intro P n h1 h2
  simp [archive_append_stdin_with, h1, h2]

/-- Witness for C9 at the directory /a/b (is_dir set, is_file clear). -/
theorem c9_dash_skips_type_check_witness :
    archive_dispatch ⟨true, [.normal "a", .normal "b"]⟩ (some true)
        false true [7] =
      .ok (archive_append_stdin_with ⟨true, [.normal "a", .normal "b"]⟩ [7])
    ∧ (⟨true, [.normal "a", .normal "b"]⟩ : RPath).parent
        = some ⟨true, [.normal "a"]⟩
    ∧ (archive_append_stdin_with ⟨true, [.normal "a", .normal "b"]⟩ [7]).map
        Prod.snd =
      some ((archive_dir_for_file_pure ⟨true, [.normal "a"]⟩).joinName "b") := by
  have h := c9_dash_skips_type_check
    ⟨true, [.normal "a", .normal "b"]⟩ false true [7]
  exact ⟨h.1, rfl, h.2.2 _ _ rfl rfl⟩

/-- C10: each of the three archive operations returns a value (rather than
panicking) exactly when the target has both a parent and a base name; in
particular at the root path, which has neither, all three panic (modelled
as none) instead of returning an error value. -/
theorem c10_unwrap_panic_conditions (t : RPath) (stdin : List Nat) :
    ((archive_move_file_with t).isSome ↔
        (t.parent.isSome ∧ t.fileName.isSome))
    ∧ ((archive_move_dir_with t).isSome ↔
        (t.parent.isSome ∧ t.fileName.isSome))
    ∧ ((archive_append_stdin_with t stdin).isSome ↔
        (t.parent.isSome ∧ t.fileName.isSome))
    ∧ (t = ⟨true, []⟩ → archive_move_file_with t = none
        ∧ archive_move_dir_with t = none
        ∧ archive_append_stdin_with t stdin = none) := by
  refine ⟨?_, ?_, ?_, ?_⟩
  · cases hp : t.parent <;> cases hn : t.fileName <;>
      simp [archive_move_file_with, hp, hn]
  · cases hp : t.parent <;> cases hn : t.fileName <;>
      simp [archive_move_dir_with, hp, hn]
  · cases hp : t.parent <;> cases hn : t.fileName <;>
      simp [archive_append_stdin_with, hp, hn]
  · rintro rfl
    refine ⟨rfl, rfl, rfl⟩

/-- C6: every single append invocation replaces the destination contents
by the previous contents (empty when absent) followed by the piped bytes
and leaves every other path unchanged; consequently a whole sequence of
invocations accumulates the flattened payloads at the tail, the previous
contents always remaining a prefix. -/
theorem c6_append_never_truncates (fs : FsState) (file P : RPath)
    (n : String) (h1 : file.parent = some P) (h2 : file.fileName = some n) :
    (∀ stdin : List Nat,
      archive_append_stdin_run fs file stdin =
        some (fun q =>
          if q = (archive_dir_for_file_pure P).joinName n then
            some ((fs ((archive_dir_for_file_pure P).joinName n)).getD [] ++ stdin)
          else fs q,
          (archive_dir_for_file_pure P).joinName n))
    ∧ (∀ payloads : List (List Nat), ∃ fs2 : FsState,
        archive_append_stdin_runs fs file payloads = some fs2
        ∧ (fs2 ((archive_dir_for_file_pure P).joinName n)).getD [] =
            (fs ((archive_dir_for_file_pure P).joinName n)).getD []
                    ++ payloads.flatten
        ∧ ∀ q : RPath, q ≠ (archive_dir_for_file_pure P).joinName n →
            fs2 q = fs q) := by
  have hstep : ∀ (g : FsState) (stdin : List Nat),
      archive_append_stdin_run g file stdin =
        some (fun q =>
          if q = (archive_dir_for_file_pure P).joinName n then
            some ((g ((archive_dir_for_file_pure P).joinName n)).getD [] ++ stdin)
          else g q,
          (archive_dir_for_file_pure P).joinName n) := by
    intro g stdin
    simp [archive_append_stdin_run, h1, h2]
  refine ⟨fun stdin => hstep fs stdin, ?_⟩
  intro payloads
  induction payloads generalizing fs with
  | nil =>
    exact ⟨fs, rfl, by simp, fun q _ => rfl⟩
  | cons s rest ih =>
    set dest := (archive_dir_for_file_pure P).joinName n with hdest
    set g : FsState := fun q =>
      if q = dest then some ((fs dest).getD [] ++ s) else fs q with hg
    obtain ⟨fs2, hruns, hcontents, hframe⟩ := ih g
    refine ⟨fs2, ?_, ?_, ?_⟩
    · show archive_append_stdin_runs fs file (s :: rest) = some fs2
      rw [archive_append_stdin_runs, hstep fs s]
      exact hruns
    · rw [hcontents]
      simp [hg, List.append_assoc]
    · intro q hq
      rw [hframe q hq]
      simp [hg, if_neg hq]

/-- Witness for C6: target /a/b.txt over an initially empty filesystem. -/
theorem c6_append_never_truncates_witness :
    (⟨true, [.normal "a", .normal "b.txt"]⟩ : RPath).parent
        = some ⟨true, [.normal "a"]⟩
    ∧ (⟨true, [.normal "a", .normal "b.txt"]⟩ : RPath).fileName = some "b.txt"
    ∧ (∀ payloads : List (List Nat), ∃ fs2 : FsState,
        archive_append_stdin_runs (fun _ => none)
            ⟨true, [.normal "a", .normal "b.txt"]⟩ payloads = some fs2
        ∧ (fs2 ((archive_dir_for_file_pure ⟨true, [.normal "a"]⟩).joinName
              "b.txt")).getD [] =
            ((fun _ => none : FsState)
                ((archive_dir_for_file_pure ⟨true, [.normal "a"]⟩).joinName
                  "b.txt")).getD [] ++ payloads.flatten
        ∧ ∀ q : RPath,
            q ≠ (archive_dir_for_file_pure ⟨true, [.normal "a"]⟩).joinName
              "b.txt" →
            fs2 q = (fun _ => none : FsState) q) :=
  ⟨rfl, rfl,
    (c6_append_never_truncates (fun _ => none)
      ⟨true, [.normal "a", .normal "b.txt"]⟩ ⟨true, [.normal "a"]⟩ "b.txt"
      rfl rfl).2⟩

/-- Witness for C10 at the root path / with stdin [1]. -/
theorem c10_unwrap_panic_conditions_witness :
    archive_move_file_with ⟨true, []⟩ = none
    ∧ archive_move_dir_with ⟨true, []⟩ = none
    ∧ archive_append_stdin_with ⟨true, []⟩ [1] = none := by
  exact (c10_unwrap_panic_conditions ⟨true, []⟩ [1]).2.2.2 rfl

/-- C7: for every digit classifier (in particular the Nd table the regex
crate bundles for \d), the name command strips a leading YYYY-MM-DD-
prefix, or a leading YYYY-MM-DD prefix not followed by a dash, from the
base name of its argument — the Y, M, D positions being characters the
classifier accepts — and prints the base name unchanged when no such
date prefix is present. -/
theorem c7_name_strips_date (nd : Char → Bool) (dirname : RPath)
    (base : String) (h : dirname.fileName = some base) :
    name_cmd_with nd dirname = .ok (strip_date_with nd base)
    ∧ (∀ (y1 y2 y3 y4 m1 m2 d1 d2 : Char) (rest : List Char),
        nd y1 = true → nd y2 = true → nd y3 = true →
        nd y4 = true → nd m1 = true → nd m2 = true →
        nd d1 = true → nd d2 = true →
        base.data = y1 :: y2 :: y3 :: y4 :: '-' :: m1 :: m2 :: '-' :: d1
            :: d2 :: '-' :: rest →
        strip_date_with nd base = String.mk rest)
    ∧ (∀ (y1 y2 y3 y4 m1 m2 d1 d2 : Char) (rest : List Char),
        nd y1 = true → nd y2 = true → nd y3 = true →
        nd y4 = true → nd m1 = true → nd m2 = true →
        nd d1 = true → nd d2 = true →
        rest.head? ≠ some '-' →
        base.data = y1 :: y2 :: y3 :: y4 :: '-' :: m1 :: m2 :: '-' :: d1
            :: d2 :: rest →
        strip_date_with nd base = String.mk rest)
    ∧ ((∀ (y1 y2 y3 y4 m1 m2 d1 d2 : Char) (rest : List Char),
          base.data = y1 :: y2 :: y3 :: y4 :: '-' :: m1 :: m2 :: '-' :: d1
              :: d2 :: rest →
          ¬(nd y1 = true ∧ nd y2 = true ∧ nd y3 = true ∧
            nd y4 = true ∧ nd m1 = true ∧ nd m2 = true ∧
            nd d1 = true ∧ nd d2 = true)) →
        strip_date_with nd base = base) := by
  refine ⟨by simp [name_cmd_with, h], ?_, ?_, ?_⟩
  · intro y1 y2 y3 y4 m1 m2 d1 d2 rest hy1 hy2 hy3 hy4 hm1 hm2 hd1 hd2 heq
    unfold strip_date_with
    rw [heq]
    simp [hy1, hy2, hy3, hy4, hm1, hm2, hd1, hd2]
  · intro y1 y2 y3 y4 m1 m2 d1 d2 rest hy1 hy2 hy3 hy4 hm1 hm2 hd1 hd2
      hhead heq
    unfold strip_date_with
    rw [heq]
    simp only [hy1, hy2, hy3, hy4, hm1, hm2, hd1, hd2, beq_self_eq_true,
      Bool.and_self, Bool.true_and, Bool.and_true, if_true]
    match rest, hhead with
    | [], _ => rfl
    | c :: rest2, hhead =>
      have hc : c ≠ '-' := by
        intro hcontra
        exact hhead (by simp [hcontra])
      simp only [List.head?] at hhead
      cases hcc : c == '-' with
      | true => exact absurd (by simpa using hcc) hc
      | false =>
        have : ¬(c = '-') := hc
        simp [this]
  · intro hno
    unfold strip_date_with
    rcases hd : base.data with _ |
      ⟨a1, _ | ⟨a2, _ | ⟨a3, _ | ⟨a4, _ | ⟨a5, _ | ⟨a6, _ | ⟨a7, _ |
        ⟨a8, _ | ⟨a9, _ | ⟨a10, rest⟩⟩⟩⟩⟩⟩⟩⟩⟩⟩ <;> try rfl
    by_cases hc : (nd a1 && nd a2 && nd a3 && nd a4 &&
        (a5 == '-') && nd a6 && nd a7 && (a8 == '-') &&
        nd a9 && nd a10) = true
    · simp only [Bool.and_eq_true, beq_iff_eq] at hc
      obtain ⟨⟨⟨⟨⟨⟨⟨⟨⟨h1, h2⟩, h3⟩, h4⟩, h5⟩, h6⟩, h7⟩, h8⟩, h9⟩, h10⟩ := hc
      subst h5
      subst h8
      exact absurd ⟨h1, h2, h3, h4, h6, h7, h9, h10⟩
        (hno a1 a2 a3 a4 a6 a7 a9 a10 rest hd)
    · simp [hc]

/-- Witness for C7, instantiating the classifier at the ASCII digits (on
which every faithful Nd table agrees): 2025-09-13-MyProject yields
MyProject, and MyProject without a date prefix is printed unchanged. -/
theorem c7_name_strips_date_witness :
    (⟨false, [.normal "2025-09-13-MyProject"]⟩ : RPath).fileName
        = some "2025-09-13-MyProject"
    ∧ name_cmd_with Char.isDigit ⟨false, [.normal "2025-09-13-MyProject"]⟩
        = .ok "MyProject"
    ∧ strip_date_with Char.isDigit "2025-09-13-MyProject" = "MyProject"
    ∧ strip_date_with Char.isDigit "MyProject" = "MyProject" := by
  have h := c7_name_strips_date Char.isDigit
    ⟨false, [.normal "2025-09-13-MyProject"]⟩ "2025-09-13-MyProject" rfl
  have h2 := h.2.1 '2' '0' '2' '5' '0' '9' '1' '3' "MyProject".data
    rfl rfl rfl rfl rfl rfl rfl rfl rfl
  refine ⟨rfl, ?_, ?_, rfl⟩
  · rw [h.1, h2]
  · rw [h2]

/-- C8: the default mode fails exactly when the terminal branch has no
argument words or the piped branch has a blank (empty after trimming)
first line; otherwise it creates project/<slug(title)> and prints that
path, the title being the space-joined argument words in the terminal
case and the trimmed first piped line otherwise. -/
theorem c8_default_mode (isTty : Bool) (args : List String) (piped : String) :
    ((∃ e, from_default_args isTty args piped = .error e) ↔
      ((isTty = true ∧ args = []) ∨
       (isTty = false ∧ rust_trim ((lines_first piped).getD "") = "")))
    ∧ (isTty = true → args ≠ [] →
        from_default_args isTty args piped =
          .ok
            ([.createDirAll
                ((⟨false, [.normal "project"]⟩ : RPath).joinName
                  (slugify_title (String.intercalate " " args))),
              .printLn
                ((⟨false, [.normal "project"]⟩ : RPath).joinName
                  (slugify_title (String.intercalate " " args))).display],
             (⟨false, [.normal "project"]⟩ : RPath).joinName
               (slugify_title (String.intercalate " " args))))
    ∧ (isTty = false → rust_trim ((lines_first piped).getD "") ≠ "" →
        from_default_args isTty args piped =
          .ok
            ([.createDirAll
                ((⟨false, [.normal "project"]⟩ : RPath).joinName
                  (slugify_title (rust_trim ((lines_first piped).getD "")))),
              .printLn
                ((⟨false, [.normal "project"]⟩ : RPath).joinName
                  (slugify_title (rust_trim ((lines_first piped).getD "")))).display],
             (⟨false, [.normal "project"]⟩ : RPath).joinName
               (slugify_title (rust_trim ((lines_first piped).getD ""))))) := by
  refine ⟨?_, ?_, ?_⟩
  · cases isTty with
    | true =>
      by_cases ha : args = []
      · subst ha
        simp [from_default_args]
      · simp [from_default_args, List.isEmpty_iff, ha]
    | false =>
      by_cases hp : rust_trim ((lines_first piped).getD "") = ""
      · simp [from_default_args, hp]
      · simp [from_default_args, hp]
  · intro ht ha
    subst ht
    simp [from_default_args, List.isEmpty_iff, ha, create_project_dir]
  · intro ht hp
    subst ht
    simp [from_default_args, hp, create_project_dir]

/-- Witness for C8: with a terminal and the words My Project! the
directory project/my-project is created and printed; with a terminal and
no words, and with blank piped input, the command fails. -/
theorem c8_default_mode_witness :
    from_default_args true ["My", "Project!"] "" =
      .ok
        ([.createDirAll ⟨false, [.normal "project", .normal "my-project"]⟩,
          .printLn "project/my-project"],
         ⟨false, [.normal "project", .normal "my-project"]⟩)
    ∧ (∃ e, from_default_args true [] "" = .error e)
    ∧ (∃ e, from_default_args false [] "   \n" = .error e) := by
  refine ⟨?_, ?_, ?_⟩
  · have h := (c8_default_mode true ["My", "Project!"] "").2.1 rfl (by simp)
    rw [h]
    rfl
  · exact (c8_default_mode true [] "").1.mpr (Or.inl ⟨rfl, rfl⟩)
  · exact (c8_default_mode false [] "   \n").1.mpr (Or.inr ⟨rfl, by decide⟩)

/-- C4: for every non-empty title, slugify_title is idempotent and its
output consists only of ASCII lowercase letters (code points 97 to 122),
ASCII digits (48 to 57) and the dash, that is, of characters from
[a-z0-9-]. -/
theorem c4_slug_idempotent_and_charset (s : String) (h : s ≠ "") :
    slugify_title (slugify_title s) = slugify_title s
    ∧ ∀ c ∈ (slugify_title s).data,
        (97 ≤ c.toNat ∧ c.toNat ≤ 122) ∨ (48 ≤ c.toNat ∧ c.toNat ≤ 57) ∨
          c = '-' := by
  refine ⟨slugifyWith_idem _ _, ?_⟩
  intro c hc
  rcases slugifyWith_mem deunicode_tbl s c hc with h1 | h1
  · simp [isLowerAlnum] at h1
    rcases h1 with ⟨ha, hb⟩ | ⟨ha, hb⟩
    · exact Or.inl ⟨ha, hb⟩
    · exact Or.inr (Or.inl ⟨ha, hb⟩)
  · exact Or.inr (Or.inr h1)

/-- Witness for C4 at the title of the repository test suite. -/
theorem c4_slug_idempotent_and_charset_witness :
    ("My Project!" : String) ≠ ""
    ∧ slugify_title "My Project!" = "my-project"
    ∧ slugify_title (slugify_title "My Project!") = slugify_title "My Project!"
    ∧ ∀ c ∈ (slugify_title "My Project!").data,
        (97 ≤ c.toNat ∧ c.toNat ≤ 122) ∨ (48 ≤ c.toNat ∧ c.toNat ≤ 57) ∨
          c = '-' := by
  have h := c4_slug_idempotent_and_charset "My Project!" (by decide)
  exact ⟨by decide, by rfl, h.1, h.2⟩

end Slugpm
